import Mathlib

/-!
Shallow embedding of the p2p blockchain synchronization protocol of
src/blockchain/src/protocol.rs (the `Node` state machine), together with
spec-modelled stand-ins for the collaborator modules that are declared but whose
sources are not part of src/ (mempool, shortid, state, errors, starsig).

Machine integers (u64/usize) are modelled as Nat: none of the verified
operations can overflow a u64 in any reachable configuration, and the single
subtraction in the code (`shortid_nonce_ttl -= 1`) is guarded by the TTL
invariant proved below, so Nat's truncated subtraction agrees with usize there.
-/

namespace Slingshot

/-- Protocol version constant `CURRENT_VERSION` of protocol.rs. -/
def CURRENT_VERSION : Nat := 0

/-- Number of synchronize cycles between short-id nonce rotations,
`SHORTID_NONCE_TTL` of protocol.rs. -/
def SHORTID_NONCE_TTL : Nat := 50

/-- Peer identifier: the associated type `Network::PeerIdentifier`, modelled as a
natural number (the source only requires it to be clonable, hashable, comparable
and byte-viewable). -/
abbrev PeerId := Nat

/-- Short transaction id (a 6-byte value in the source module `shortid`),
modelled as a natural number.  A concatenated short-id byte list is modelled as
the list of its SHORTID_LEN-sized chunks, which is what `ShortID::scan` and
`ShortID::at_position` expose to the protocol (trailing partial chunks are
ignored by both readers). -/
abbrev ShortID := Nat

/-- Block header: a height, a millisecond timestamp, and a digest committing to
the block body.  The source requires `id` to be a pure function of the header
contents and header serialization to be injective over `id`. -/
structure BlockHeader where
  height : Nat
  timestamp_ms : Nat
  txroot : Nat
deriving DecidableEq, Repr

/-- Block id: the 32-byte hash of the header.  Since serialization is required
to be injective over the id, the hash is modelled as the header itself. -/
abbrev BlockID := BlockHeader

/-- Modelled from the spec: `BlockHeader::id()` (block.rs is not in src/) is a
pure injective function of the header contents; with `BlockID` being the header
itself, the identity function is that hash. -/
def BlockHeader.id (h : BlockHeader) : BlockID := h

/-- Modelled from the spec: a starsig signature (the starsig crate is not in
src/).  The idealized single-signer scheme records the signed block id and the
key that signed it; verification succeeds exactly for the matching public key. -/
structure Signature where
  signedId : BlockID
  key : Nat
deriving DecidableEq, Repr

/-- Signs a block: `create_block_signature` of protocol.rs.  The merlin
transcript with domain "ZkVM.stubnet1" binding `block_id` is abstracted into the
signature recording the header id; the starsig primitive is modelled from the
spec. -/
def create_block_signature (header : BlockHeader) (privkey : Nat) : Signature :=
  { signedId := header.id, key := privkey }

/-- Verifies a block signature against a public key: `verify_block_signature` of
protocol.rs, with the starsig verify primitive modelled from the spec: a
signature verifies exactly when it signs this header's id under the matching
key. -/
def verify_block_signature (header : BlockHeader) (signature : Signature)
    (pubkey : Nat) : Bool :=
  decide (signature.signedId = header.id ∧ signature.key = pubkey)

/-- Modelled from the spec: a mempool transaction (zkvm `BlockTx`, not in src/):
a derived txid plus a flag abstracting whether the zero-knowledge verification
of the transaction succeeds. -/
structure BlockTx where
  txid : Nat
  wellFormed : Bool
deriving DecidableEq, Repr

/-- Verified transaction (zkvm `VerifiedTx`, not in src/), kept as the
transaction itself. -/
abbrev VerifiedTx := BlockTx

/-- Modelled from the spec: the utreexo `Catchup` object of an applied block
(utreexo module not in src/), abstracted as the list of txids consumed by that
block; it lets mempool entries be re-based, dropping entries whose inputs were
consumed. -/
abbrev Catchup := List Nat

/-- Blockchain errors, following the error taxonomy of the spec (errors.rs is
not in src/).  `UtreexoError` is the class `receive_txs` treats as skippable
(duplicate/proof-conflict); `TxValidation` stands for any other transaction or
block validation failure. -/
inductive BlockchainError where
  | IncompatibleVersion
  | InvalidBlockSignature
  | BlockNotRelevant (height : Nat)
  | BlockNotFound (height : Nat)
  | StaleMempoolState (tip : BlockID)
  | UtreexoError (code : Nat)
  | TxValidation (code : Nat)
deriving DecidableEq, Repr

/-- True exactly on the `UtreexoError` class, mirroring the
`if let BlockchainError::UtreexoError(_) = err` test in `Node::receive_txs`. -/
def BlockchainError.isUtreexo : BlockchainError → Bool
  | .UtreexoError _ => true
  | _ => false

/-- Modelled from the spec: `BlockchainState` (state.rs not in src/) holds the
current tip header and a UTXO accumulator, the latter abstracted as a counter. -/
structure BlockchainState where
  tip : BlockHeader
  utxo : Nat
deriving DecidableEq, Repr

/-- Modelled from the spec: `BlockchainState::apply_block` (state.rs not in
src/): an atomic transition that succeeds exactly on a block extending the tip
by one whose transactions all verify, producing the post-state (whose tip is the
applied header), the catchup, and the verified transactions; any other input
fails with a classified validation error. -/
def BlockchainState.apply_block (st : BlockchainState) (header : BlockHeader)
    (txs : List BlockTx) :
    Except BlockchainError (BlockchainState × Catchup × List VerifiedTx) :=
  if header.height = st.tip.height + 1 ∧ txs.all (fun tx => tx.wellFormed) then
    .ok ({ tip := header, utxo := st.utxo + txs.length },
         txs.map (fun tx => tx.txid), txs)
  else
    .error (.TxValidation header.height)

/-- Digest of a list of transactions, used as the body commitment in the header
of a block built from the mempool (keeps header ids injective in the body). -/
def txrootOf (txs : List BlockTx) : Nat :=
  txs.foldl (fun acc tx => acc * 1000003 + tx.txid + 1) 7

/-- Modelled from the spec: the `Mempool` (mempool.rs not in src/): an ordered
collection of verified candidate transactions sealed by a blockchain state and a
timestamp. -/
structure Mempool where
  state : BlockchainState
  timestamp_ms : Nat
  entries : List BlockTx
deriving DecidableEq, Repr

/-- Mempool constructor `Mempool::new(state, timestamp_ms)`. -/
def Mempool.new (state : BlockchainState) (timestamp_ms : Nat) : Mempool :=
  { state := state, timestamp_ms := timestamp_ms, entries := [] }

/-- Number of mempool entries, `Mempool::len`. -/
def Mempool.len (m : Mempool) : Nat := m.entries.length

/-- Modelled from the spec: `Mempool::append` verifies and then inserts in
insertion order; a duplicate or utxo-proof conflict fails with the skippable
`UtreexoError` class, any other validation failure with `TxValidation`. -/
def Mempool.append (m : Mempool) (tx : BlockTx) : Except BlockchainError Mempool :=
  if m.entries.any (fun e => e.txid == tx.txid) then
    .error (.UtreexoError tx.txid)
  else if tx.wellFormed then
    .ok { m with entries := m.entries ++ [tx] }
  else
    .error (.TxValidation tx.txid)

/-- Modelled from the spec: `Mempool::update_timestamp` advances the internal
clock for timelock validation, clamped monotone. -/
def Mempool.update_timestamp (m : Mempool) (ms : Nat) : Mempool :=
  { m with timestamp_ms := max m.timestamp_ms ms }

/-- Modelled from the spec: `Mempool::update_state` re-bases the entries onto
the new state, dropping entries whose inputs were consumed by the applied block
(recorded in the catchup). -/
def Mempool.update_state (m : Mempool) (new_state : BlockchainState)
    (catchup : Catchup) : Mempool :=
  { m with
    state := new_state
    entries := m.entries.filter (fun e => !(catchup.contains e.txid)) }

/-- Modelled from the spec: `Mempool::make_block` converts the entire current
mempool into a hypothetical next block, returning the post-application state and
the catchup; it leaves the mempool unchanged (it is a pure function of it). -/
def Mempool.make_block (m : Mempool) : BlockchainState × Catchup :=
  ({ tip := { height := m.state.tip.height + 1, timestamp_ms := m.timestamp_ms,
              txroot := txrootOf m.entries },
     utxo := m.state.utxo + m.entries.length },
   m.entries.map (fun e => e.txid))

/-- Message payload `GetInventory` of protocol.rs. -/
structure GetInventory where
  version : Nat
  shortid_nonce : Nat
deriving DecidableEq, Repr

/-- Message payload `Inventory` of protocol.rs. -/
structure Inventory where
  version : Nat
  tip : BlockHeader
  tip_signature : Signature
  shortid_nonce : Nat
  shortid_list : List ShortID
deriving DecidableEq, Repr

/-- Message payload `GetBlock` of protocol.rs. -/
structure GetBlock where
  height : Nat
deriving DecidableEq, Repr

/-- Message payload `Block` of protocol.rs. -/
structure Block where
  header : BlockHeader
  signature : Signature
  txs : List BlockTx
deriving DecidableEq, Repr

/-- Message payload `GetMempoolTxs` of protocol.rs. -/
structure GetMempoolTxs where
  shortid_nonce : Nat
  shortid_list : List ShortID
deriving DecidableEq, Repr

/-- Message payload `MempoolTxs` of protocol.rs. -/
structure MempoolTxs where
  tip : BlockID
  txs : List BlockTx
deriving DecidableEq, Repr

/-- Enumeration of all protocol messages (`Message` of protocol.rs). -/
inductive Message where
  | GetInventory (request : GetInventory)
  | Inventory (inventory : Inventory)
  | GetBlock (request : GetBlock)
  | Block (block : Block)
  | GetMempoolTxs (request : GetMempoolTxs)
  | MempoolTxs (request : MempoolTxs)
deriving DecidableEq, Repr

/-- True exactly on `Message::Block`. -/
def Message.isBlock : Message → Bool
  | .Block _ => true
  | _ => false

/-- Modelled from the spec: the Storage contract (the Storage trait of
protocol.rs has no implementation in src/): it holds the blockchain state, the
signature over the current tip, and the block-by-height index; `store_block`
atomically replaces the state (advancing the tip) and records the block. -/
structure StorageState where
  state : BlockchainState
  tipSignature : Signature
  blocks : List (Nat × Block)
deriving DecidableEq, Repr

/-- Storage accessor `tip()`: the signed tip of the blockchain. -/
def StorageState.tip (s : StorageState) : BlockHeader × Signature :=
  (s.state.tip, s.tipSignature)

/-- Storage accessor `tip_height()`: defaults to `tip().0.height`. -/
def StorageState.tip_height (s : StorageState) : Nat := s.state.tip.height

/-- Storage accessor `tip_id()`: defaults to `tip().0.id()`. -/
def StorageState.tip_id (s : StorageState) : BlockID := s.state.tip.id

/-- Storage accessor `block_at_height`. -/
def StorageState.block_at_height (s : StorageState) (h : Nat) : Option Block :=
  (s.blocks.find? (fun hb => hb.1 == h)).map (fun hb => hb.2)

/-- Storage accessor `blockchain_state()`. -/
def StorageState.blockchain_state (s : StorageState) : BlockchainState := s.state

/-- Modelled from the spec: `Storage::store_block` stores the new block and the
updated state, atomically with respect to tip advancement. -/
def StorageState.store_block (s : StorageState) (block : Block)
    (new_state : BlockchainState) (_catchup : Catchup)
    (_vtxs : List VerifiedTx) : StorageState :=
  { state := new_state
    tipSignature := block.signature
    blocks := (block.header.height, block) :: s.blocks }

/-- Status of a peer, `PeerInfo` of protocol.rs.  `last_inventory_received` is
an `Instant`, modelled as seconds on an abstract monotone clock. -/
structure PeerInfo where
  tip : Option BlockHeader
  needs_our_inventory : Bool
  their_short_id_nonce : Nat
  shortid_nonce : Nat
  shortid_list : List ShortID
  last_inventory_received : Nat
deriving DecidableEq, Repr

/-- The node, `Node<N, S>` of protocol.rs.  The peer HashMap is modelled as an
association list (its iteration order standing for the map's arbitrary one), and
`self_id` is the value of `network.self_id()`.  The BulletproofGens field is
folded into the opaque verification flag of `BlockTx`. -/
structure NodeState where
  network_pubkey : Nat
  self_id : PeerId
  target_tip : BlockHeader
  peers : List (PeerId × PeerInfo)
  shortid_nonce : Nat
  shortid_nonce_ttl : Nat
  mempool : Mempool
  storage : StorageState
deriving DecidableEq, Repr

/-- Environment of the node: the short-id transform `shorten(nonce, peer_id,
txid)` of the shortid module (not in src/), kept as a parameter so that every
theorem below holds for an arbitrary transform. -/
structure Env where
  shorten : Nat → PeerId → Nat → ShortID

/-- Modelled from the spec: the ShortID transform (shortid.rs not in src/): a
deterministic keyed projection of the txid into the 6-byte short-id space under
a (nonce, peer-id) pair. -/
def shortenModel (nonce : Nat) (pid : PeerId) (txid : Nat) : ShortID :=
  (nonce * 1000003 + pid * 8191 + txid * 31 + 5) % (2 ^ 48)

/-- The concrete environment using the modelled short-id transform. -/
def envModel : Env := { shorten := shortenModel }

/-- Result of one public operation on the node: the state after the call
(mutations made before an early error return persist, as they do through
`&mut self` in the source), the messages passed to `network.send` in order, and
the error returned, if any. -/
structure StepResult where
  state : NodeState
  sent : List (PeerId × Message)
  err : Option BlockchainError
deriving DecidableEq, Repr

/-- Applies `f` to the entry of `pid`, as `peers.get_mut(&pid).map(f)` does;
a missing peer leaves the table unchanged. -/
def updatePeer (peers : List (PeerId × PeerInfo)) (pid : PeerId)
    (f : PeerInfo → PeerInfo) : List (PeerId × PeerInfo) :=
  peers.map (fun pp => if pp.1 = pid then (pp.1, f pp.2) else pp)

/-- Looks a peer up in the table. -/
def findPeer (peers : List (PeerId × PeerInfo)) (pid : PeerId) : Option PeerInfo :=
  (peers.find? (fun pp => pp.1 == pid)).map (fun pp => pp.2)

/-- HashMap-style insert: replaces the entry if the key is present. -/
def insertPeer (peers : List (PeerId × PeerInfo)) (pid : PeerId)
    (info : PeerInfo) : List (PeerId × PeerInfo) :=
  if peers.any (fun pp => pp.1 == pid) then
    updatePeer peers pid (fun _ => info)
  else
    peers ++ [(pid, info)]

/-- Creates a new node, `Node::new` of protocol.rs; `nonce` stands for the
`thread_rng().gen::<u64>()` draw. -/
def Node.new (network_pubkey : Nat) (self_id : PeerId) (storage : StorageState)
    (nonce : Nat) : NodeState :=
  let state := storage.blockchain_state
  let tip := state.tip
  { network_pubkey := network_pubkey
    self_id := self_id
    target_tip := tip
    peers := []
    shortid_nonce := nonce
    shortid_nonce_ttl := SHORTID_NONCE_TTL
    mempool := Mempool.new state tip.timestamp_ms
    storage := storage }

/-- Handler `Node::process_inventory_request` of protocol.rs. -/
def process_inventory_request (s : NodeState) (pid : PeerId)
    (request : GetInventory) : StepResult :=
  if request.version ≠ CURRENT_VERSION then
    { state := s, sent := [], err := some .IncompatibleVersion }
  else
    { state := { s with peers := updatePeer s.peers pid (fun p =>
        { p with needs_our_inventory := true
                 their_short_id_nonce := request.shortid_nonce }) }
      sent := [], err := none }

/-- The per-peer bookkeeping at the end of `Node::receive_inventory`: stores the
advertised tip, nonce and short-id list on the sending peer.  Note that the
source does not touch `last_inventory_received` here. -/
def recordInventory (s : NodeState) (pid : PeerId) (inventory : Inventory) :
    NodeState :=
  { s with peers := updatePeer s.peers pid (fun p =>
      { p with tip := some inventory.tip
               shortid_nonce := inventory.shortid_nonce
               shortid_list := inventory.shortid_list }) }

/-- Handler `Node::receive_inventory` of protocol.rs. -/
def receive_inventory (s : NodeState) (pid : PeerId) (inventory : Inventory) :
    StepResult :=
  if inventory.version ≠ CURRENT_VERSION then
    { state := s, sent := [], err := some .IncompatibleVersion }
  else if s.target_tip.height < inventory.tip.height then
    if verify_block_signature inventory.tip inventory.tip_signature
        s.network_pubkey then
      { state := recordInventory { s with target_tip := inventory.tip } pid inventory
        sent := [], err := none }
    else
      { state := s, sent := [], err := some .InvalidBlockSignature }
  else
    { state := recordInventory s pid inventory, sent := [], err := none }

/-- Handler `Node::send_block` of protocol.rs. -/
def send_block (s : NodeState) (pid : PeerId) (request : GetBlock) : StepResult :=
  match s.storage.block_at_height request.height with
  | none => { state := s, sent := [], err := some (.BlockNotFound request.height) }
  | some b => { state := s, sent := [(pid, .Block b)], err := none }

/-- Handler `Node::receive_block` of protocol.rs. -/
def receive_block (s : NodeState) (block_msg : Block) : StepResult :=
  if block_msg.header.height ≠ s.storage.tip_height + 1 then
    { state := s, sent := [], err := some (.BlockNotRelevant block_msg.header.height) }
  else if verify_block_signature block_msg.header block_msg.signature
      s.network_pubkey then
    match s.storage.blockchain_state.apply_block block_msg.header block_msg.txs with
    | .error e => { state := s, sent := [], err := some e }
    | .ok (new_state, catchup, vtxs) =>
      { state := { s with
          mempool := s.mempool.update_state new_state catchup
          storage := s.storage.store_block block_msg new_state catchup vtxs }
        sent := [], err := none }
  else
    { state := s, sent := [], err := some .InvalidBlockSignature }

/-- Handler `Node::send_txs` of protocol.rs: replies with every mempool entry
whose shortened txid (under the requester's nonce and id) was requested. -/
def send_txs (env : Env) (s : NodeState) (pid : PeerId)
    (request : GetMempoolTxs) : StepResult :=
  let txs := s.mempool.entries.filter
    (fun e => request.shortid_list.contains
      (env.shorten request.shortid_nonce pid e.txid))
  { state := s
    sent := [(pid, .MempoolTxs { tip := s.storage.tip_id, txs := txs })]
    err := none }

/-- The `for tx in request.txs` loop of `Node::receive_txs`: appends each
transaction in order, skipping over `UtreexoError` failures and stopping at the
first failure of any other class, which is returned; the mempool reached so far
is kept. -/
def processTxs : Mempool → List BlockTx → Mempool × Option BlockchainError
  | m, [] => (m, none)
  | m, tx :: rest =>
    match Mempool.append m tx with
    | .ok m2 => processTxs m2 rest
    | .error e => if e.isUtreexo then processTxs m rest else (m, some e)

/-- Handler `Node::receive_txs` of protocol.rs. -/
def receive_txs (s : NodeState) (request : MempoolTxs) : StepResult :=
  if request.tip ≠ s.storage.tip_id then
    { state := s, sent := [], err := some (.StaleMempoolState request.tip) }
  else
    let r := processTxs s.mempool request.txs
    { state := { s with mempool := r.1 }, sent := [], err := r.2 }

/-- Dispatch of `Node::process_message` of protocol.rs. -/
def process_message (env : Env) (s : NodeState) (pid : PeerId)
    (message : Message) : StepResult :=
  match message with
  | .GetInventory request => process_inventory_request s pid request
  | .Inventory inventory => receive_inventory s pid inventory
  | .GetBlock request => send_block s pid request
  | .Block block_msg => receive_block s block_msg
  | .GetMempoolTxs request => send_txs env s pid request
  | .MempoolTxs request => receive_txs s request

/-- `Node::rotate_shortid_nonce_if_needed` of protocol.rs; `freshNonce` stands
for the `thread_rng().gen::<u64>()` draw taken when the TTL expires. -/
def rotate_shortid_nonce_if_needed (s : NodeState) (freshNonce : Nat) : NodeState :=
  let ttl := s.shortid_nonce_ttl - 1
  if ttl = 0 then
    { s with
      shortid_nonce_ttl := SHORTID_NONCE_TTL
      shortid_nonce := freshNonce
      peers := s.peers.map (fun pp =>
        (pp.1, { pp.2 with shortid_nonce := freshNonce, shortid_list := [] })) }
  else
    { s with shortid_nonce_ttl := ttl }

/-- `Node::mempool_inventory_for_peer` of protocol.rs: the concatenated
short-ids of all mempool entries under the peer's requested nonce. -/
def mempool_inventory_for_peer (env : Env) (s : NodeState) (pid : PeerId)
    (nonce : Nat) : List ShortID :=
  s.mempool.entries.map (fun e => env.shorten nonce pid e.txid)

/-- The `or_insert_with` update of the `requests` map in
`Node::synchronize_mempool`: appends the claimed id to the peer's pending
request, creating it with the current nonce if absent. -/
def updateReq (nonce : Nat) (pid : PeerId) (id : ShortID) :
    List (PeerId × GetMempoolTxs) → List (PeerId × GetMempoolTxs)
  | [] => [(pid, { shortid_nonce := nonce, shortid_list := [id] })]
  | (p, req) :: rest =>
    if p = pid then
      (p, { req with shortid_list := req.shortid_list ++ [id] }) :: rest
    else
      (p, req) :: updateReq nonce pid id rest

/-- The inner `for (pid, peer) in self.peers` pass of
`Node::synchronize_mempool` at one offset: reads `peer.shortid_list[offset]` at
each peer; any id found clears the `done` flag, and an id not yet assigned is
claimed and appended to that peer's pending request. -/
def assignAtOffset (nonce : Nat) (offset : Nat) :
    List (PeerId × PeerInfo) → List ShortID → List (PeerId × GetMempoolTxs) →
    Bool → Bool × List ShortID × List (PeerId × GetMempoolTxs)
  | [], assigned, reqs, done => (done, assigned, reqs)
  | (pid, peer) :: rest, assigned, reqs, done =>
    match peer.shortid_list.get? offset with
    | none => assignAtOffset nonce offset rest assigned reqs done
    | some id =>
      if id ∈ assigned then
        assignAtOffset nonce offset rest assigned reqs false
      else
        assignAtOffset nonce offset rest (id :: assigned)
          (updateReq nonce pid id reqs) false

/-- The outer `for offset in 0..1_000_000` loop of `Node::synchronize_mempool`,
breaking as soon as no peer has an id at the current offset. -/
def syncLoop (nonce : Nat) (peers : List (PeerId × PeerInfo)) :
    Nat → Nat → List ShortID → List (PeerId × GetMempoolTxs) →
    List (PeerId × GetMempoolTxs)
  | 0, _offset, _assigned, reqs => reqs
  | Nat.succ fuel, offset, assigned, reqs =>
    match assignAtOffset nonce offset peers assigned reqs true with
    | (true, _, _) => reqs
    | (false, a2, r2) => syncLoop nonce peers fuel (offset + 1) a2 r2

/-- The shortened txids of every entry already in our mempool, under our current
nonce and our own id: the seed of the assigned set in
`Node::synchronize_mempool`. -/
def mempoolShortIds (env : Env) (s : NodeState) : List ShortID :=
  s.mempool.entries.map (fun e => env.shorten s.shortid_nonce s.self_id e.txid)

/-- The `GetMempoolTxs` requests constructed by `Node::synchronize_mempool` of
protocol.rs (the message sends being their emission in map order). -/
def synchronizeMempoolRequests (env : Env) (s : NodeState) :
    List (PeerId × GetMempoolTxs) :=
  syncLoop s.shortid_nonce s.peers 1000000 0 (mempoolShortIds env s) []

/-- The random peer draw of `Node::synchronize_chain`
(`peers.iter().choose(&mut thread_rng())`), with `pick` standing for the RNG
draw. -/
def choosePeer (pick : Nat) (peers : List (PeerId × PeerInfo)) : Option PeerId :=
  match peers with
  | [] => none
  | _ => (peers.get? (pick % peers.length)).map (fun pp => pp.1)

/-- `Node::synchronize` of protocol.rs, the periodic tick.  `now` is the
current instant in seconds, `freshNonce` the RNG draw used on nonce rotation,
and `pick` the RNG draw used for the random peer choice of the chain catch-up. -/
def synchronize (env : Env) (s : NodeState) (now : Nat) (freshNonce : Nat)
    (pick : Nat) : NodeState × List (PeerId × Message) :=
  let s1 := rotate_shortid_nonce_if_needed s freshNonce
  let tipPair := s1.storage.tip
  let invMsgs := (s1.peers.filter (fun pp => pp.2.needs_our_inventory)).map
    (fun pp => (pp.1, Message.Inventory
      { version := CURRENT_VERSION
        tip := tipPair.1
        tip_signature := tipPair.2
        shortid_nonce := pp.2.their_short_id_nonce
        shortid_list := mempool_inventory_for_peer env s1 pp.1
          pp.2.their_short_id_nonce }))
  let s2 := { s1 with peers := s1.peers.map (fun pp =>
    (pp.1, { pp.2 with needs_our_inventory := false })) }
  let syncMsgs :=
    if s2.target_tip.id ≠ s2.storage.tip_id then
      match choosePeer pick s2.peers with
      | some pid => [(pid, Message.GetBlock { height := s2.storage.tip_height + 1 })]
      | none => []
    else
      (synchronizeMempoolRequests env s2).map
        (fun pr => (pr.1, Message.GetMempoolTxs pr.2))
  let refreshMsgs := (s2.peers.filter
      (fun pp => 60 < now - pp.2.last_inventory_received)).map
    (fun pp => (pp.1, Message.GetInventory
      { version := CURRENT_VERSION, shortid_nonce := s2.shortid_nonce }))
  (s2, invMsgs ++ syncMsgs ++ refreshMsgs)

/-- `Node::peer_connected` of protocol.rs: inserts a fresh `PeerInfo` with
`last_inventory_received = now` and sends an initial inventory request. -/
def peer_connected (s : NodeState) (pid : PeerId) (now : Nat) :
    NodeState × List (PeerId × Message) :=
  let info : PeerInfo :=
    { tip := none
      needs_our_inventory := false
      their_short_id_nonce := 0
      shortid_nonce := s.shortid_nonce
      shortid_list := []
      last_inventory_received := now }
  let s2 := { s with peers := insertPeer s.peers pid info }
  (s2, [(pid, Message.GetInventory
    { version := CURRENT_VERSION, shortid_nonce := s2.shortid_nonce })])

/-- `Node::peer_diconnected` of protocol.rs. -/
def peer_disconnected (s : NodeState) (pid : PeerId) : NodeState :=
  { s with peers := s.peers.filter (fun pp => !(pp.1 == pid)) }

/-- `Node::create_block` of protocol.rs: clamps the timestamp, seals the entire
mempool into a signed block, re-bases the mempool, and stores the block. -/
def create_block (s : NodeState) (timestamp_ms : Nat) (signing_key : Nat) :
    NodeState :=
  let ts := max timestamp_ms (s.storage.tip).1.timestamp_ms
  let mp := s.mempool.update_timestamp ts
  let nsc := mp.make_block
  let new_state := nsc.1
  let catchup := nsc.2
  let signature := create_block_signature new_state.tip signing_key
  let block : Block :=
    { header := new_state.tip, signature := signature, txs := mp.entries }
  let vtxs : List VerifiedTx := mp.entries
  { s with
    mempool := mp.update_state new_state catchup
    storage := s.storage.store_block block new_state catchup vtxs }

/-! Concrete fixtures used by the closed instances below. -/

/-- A genesis tip at height 0. -/
def testTip : BlockHeader := { height := 0, timestamp_ms := 100, txroot := 0 }

/-- A signature over the genesis tip by the network key 7. -/
def testTipSig : Signature := { signedId := testTip, key := 7 }

/-- Storage holding the genesis tip. -/
def testStorage : StorageState :=
  { state := { tip := testTip, utxo := 0 }, tipSignature := testTipSig, blocks := [] }

/-- A freshly constructed node over `testStorage` with network key 7, own id 42
and initial nonce 3. -/
def testNode : NodeState := Node.new 7 42 testStorage 3

/-- A transparent short-id transform for concrete instances (the theorems hold
for every transform). -/
def envTest : Env := { shorten := fun _ _ txid => txid }

/-- The header extending the genesis tip. -/
def hdrNext : BlockHeader := { height := 1, timestamp_ms := 200, txroot := 0 }

/-- A block at height 1 validly signed by the network key of `testNode`. -/
def blkNext : Block :=
  { header := hdrNext, signature := { signedId := hdrNext, key := 7 }, txs := [] }

/-- A header far beyond the next height. -/
def hdrLate : BlockHeader := { height := 5, timestamp_ms := 300, txroot := 0 }

/-- A validly signed block at an irrelevant height. -/
def blkLate : Block :=
  { header := hdrLate, signature := { signedId := hdrLate, key := 7 }, txs := [] }

/-- An inventory advertising the validly signed next tip. -/
def invNext : Inventory :=
  { version := 0
    tip := hdrNext
    tip_signature := { signedId := hdrNext, key := 7 }
    shortid_nonce := 0
    shortid_list := [] }

/-- A node identical to `testNode` but one tick away from nonce rotation, with
one connected peer holding a cached short-id list. -/
def nodeTTL1 : NodeState :=
  { testNode with
    shortid_nonce_ttl := 1
    peers := [(5, { tip := none, needs_our_inventory := false,
                    their_short_id_nonce := 0, shortid_nonce := 3,
                    shortid_list := [10, 11], last_inventory_received := 0 })] }

/-- The node right after peer 5 connected at instant 0. -/
def nodeConn : NodeState := (peer_connected testNode 5 0).1

/-- An inventory from peer 5 advertising the same tip we already hold, the
peer's nonce 9 and one short id. -/
def invSame : Inventory :=
  { version := 0
    tip := testTip
    tip_signature := testTipSig
    shortid_nonce := 9
    shortid_list := [77] }

/-- The node after processing that inventory. -/
def nodeAfterInv : NodeState :=
  (process_message envModel nodeConn 5 (Message.Inventory invSame)).state

/-- The peer entry the claim predicts, except that `last_inventory_received`
still holds the connection instant 0 rather than the receipt time. -/
def peerAfterInv : PeerInfo :=
  { tip := some testTip
    needs_our_inventory := false
    their_short_id_nonce := 0
    shortid_nonce := 9
    shortid_list := [77]
    last_inventory_received := 0 }

/-- A well-formed transaction with txid 1. -/
def txOk1 : BlockTx := { txid := 1, wellFormed := true }

/-- A transaction failing verification, with txid 2. -/
def txBad : BlockTx := { txid := 2, wellFormed := false }

/-- A well-formed transaction with txid 3. -/
def txOk3 : BlockTx := { txid := 3, wellFormed := true }

/-- A `MempoolTxs` message matching the test node's tip whose middle
transaction fails verification. -/
def mtxsFix : MempoolTxs :=
  { tip := testNode.storage.tip_id, txs := [txOk1, txBad, txOk3] }

/-- The test node's mempool after appending `txOk1`. -/
def memOk1 : Mempool := { testNode.mempool with entries := [txOk1] }

/-- The concatenation of the short-id lists of a batch of requests, in order:
a short-id occurs at most once across (and within) the requests exactly when
this list has no duplicates. -/
def joinIds (reqs : List (PeerId × GetMempoolTxs)) : List ShortID :=
  reqs.foldr (fun pr acc => pr.2.shortid_list ++ acc) []

/-- Invariant of the round-robin claim loop of `synchronize_mempool`: the seed
(the shortened ids of our own mempool) is contained in the assigned set, the
ids claimed across all pending requests are distinct, every claimed id is
assigned and none of them comes from the seed, and every pending request
carries the nonce read at the start of the pass. -/
def SyncInv (nonce : Nat) (seed assigned : List ShortID)
    (reqs : List (PeerId × GetMempoolTxs)) : Prop :=
  (∀ x ∈ seed, x ∈ assigned)
  ∧ (joinIds reqs).Nodup
  ∧ (∀ x ∈ joinIds reqs, x ∈ assigned ∧ x ∉ seed)
  ∧ (∀ pr ∈ reqs, pr.2.shortid_nonce = nonce)

/-- A peer advertising the short ids 10 and 11. -/
def peerA : PeerInfo :=
  { tip := none, needs_our_inventory := false, their_short_id_nonce := 0,
    shortid_nonce := 3, shortid_list := [10, 11], last_inventory_received := 0 }

/-- A peer advertising the short ids 10, 12 and 13. -/
def peerB : PeerInfo :=
  { tip := none, needs_our_inventory := false, their_short_id_nonce := 0,
    shortid_nonce := 3, shortid_list := [10, 12, 13], last_inventory_received := 0 }

/-- A node connected to `peerA` and `peerB` whose mempool already holds the
transaction whose (transparent) short id is 12. -/
def nodeRR : NodeState :=
  { testNode with
    peers := [(1, peerA), (2, peerB)]
    mempool := { testNode.mempool with entries := [{ txid := 12, wellFormed := true }] } }

/-! Helper lemmas about the node operations. -/

/-- The state after a tick is the rotated state with all inventory flags
cleared; the remaining tick steps only send messages. -/
theorem synchronize_fst (env : Env) (s : NodeState) (now freshNonce pick : Nat) :
    (synchronize env s now freshNonce pick).1 =
      { rotate_shortid_nonce_if_needed s freshNonce with
        peers := (rotate_shortid_nonce_if_needed s freshNonce).peers.map
          (fun pp => (pp.1, { pp.2 with needs_our_inventory := false })) } := rfl

/-- Nonce rotation never touches the storage. -/
theorem rotate_storage (s : NodeState) (freshNonce : Nat) :
    (rotate_shortid_nonce_if_needed s freshNonce).storage = s.storage := by
  simp only [rotate_shortid_nonce_if_needed]
  split <;> rfl

/-- Nonce rotation never touches the target tip. -/
theorem rotate_target (s : NodeState) (freshNonce : Nat) :
    (rotate_shortid_nonce_if_needed s freshNonce).target_tip = s.target_tip := by
  simp only [rotate_shortid_nonce_if_needed]
  split <;> rfl

/-- Every message handler except the Block handler leaves the storage
untouched. -/
theorem pm_storage_of_not_block (env : Env) (s : NodeState) (pid : PeerId)
    (m : Message) (hm : m.isBlock = false) :
    (process_message env s pid m).state.storage = s.storage := by
  cases m with
  | GetInventory r =>
    simp only [process_message, process_inventory_request]
    split <;> rfl
  | Inventory inv =>
    simp only [process_message, receive_inventory]
    split
    · rfl
    · split
      · split <;> rfl
      · rfl
  | GetBlock r =>
    simp only [process_message, send_block]
    split <;> rfl
  | Block b => simp [Message.isBlock] at hm
  | GetMempoolTxs r => rfl
  | MempoolTxs r =>
    simp only [process_message, receive_txs]
    split <;> rfl

/-- No message handler ever lowers the height of the target tip. -/
theorem pm_target_mono (env : Env) (s : NodeState) (pid : PeerId) (m : Message) :
    s.target_tip.height ≤ (process_message env s pid m).state.target_tip.height := by
  cases m with
  | GetInventory r =>
    simp only [process_message, process_inventory_request]
    split <;> exact Nat.le_refl _
  | Inventory inv =>
    simp only [process_message, receive_inventory]
    split
    · exact Nat.le_refl _
    · split
      · split
        · next hlt _ =>
          exact Nat.le_of_lt hlt
        · exact Nat.le_refl _
      · exact Nat.le_refl _
  | GetBlock r =>
    simp only [process_message, send_block]
    split <;> exact Nat.le_refl _
  | Block b =>
    simp only [process_message, receive_block]
    split
    · exact Nat.le_refl _
    · split
      · split <;> exact Nat.le_refl _
      · exact Nat.le_refl _
  | GetMempoolTxs r => exact Nat.le_refl _
  | MempoolTxs r =>
    simp only [process_message, receive_txs]
    split <;> exact Nat.le_refl _

/-- C1, counterexample.  From a freshly constructed node whose target tip equals
the storage tip, a single validly signed `Block` message at the next height is
accepted (`process_message` succeeds) and leaves the stored tip at height 1
while `target_tip` stays at height 0: the claimed invariant
`storage.tip.height ≤ target_tip.height` is broken, because `receive_block`
never advances `target_tip`. -/
theorem c1_counterexample :
    testNode.storage.state.tip.height ≤ testNode.target_tip.height
    ∧ (process_message envModel testNode 1 (Message.Block blkNext)).err = none
    ∧ ¬ ((process_message envModel testNode 1 (Message.Block blkNext)).state.storage.state.tip.height
          ≤ (process_message envModel testNode 1 (Message.Block blkNext)).state.target_tip.height) := by
  decide

/-- C1, amended.  The invariant `storage.tip.height ≤ target_tip.height` is
preserved by `synchronize` and by `process_message` for every message other
than a `Block`; a successfully stored `Block` message is the one operation that
can push the stored tip past the target tip (see the counterexample). -/
theorem c1_amended (env : Env) (s : NodeState) (pid : PeerId) (m : Message)
    (now freshNonce pick : Nat)
    (hinv : s.storage.state.tip.height ≤ s.target_tip.height)
    (hm : m.isBlock = false) :
    (process_message env s pid m).state.storage.state.tip.height
      ≤ (process_message env s pid m).state.target_tip.height
    ∧ (synchronize env s now freshNonce pick).1.storage.state.tip.height
      ≤ (synchronize env s now freshNonce pick).1.target_tip.height := by
  constructor
  · calc (process_message env s pid m).state.storage.state.tip.height
        = s.storage.state.tip.height := by
          rw [pm_storage_of_not_block env s pid m hm]
      _ ≤ s.target_tip.height := hinv
      _ ≤ (process_message env s pid m).state.target_tip.height :=
          pm_target_mono env s pid m
  · rw [synchronize_fst]
    simpa [rotate_storage, rotate_target] using hinv

/-- C1, witness for the amended theorem at a concrete non-Block message. -/
theorem c1_witness :
    (process_message envModel testNode 1 (Message.GetBlock { height := 1 })).state.storage.state.tip.height
      ≤ (process_message envModel testNode 1 (Message.GetBlock { height := 1 })).state.target_tip.height :=
  (c1_amended envModel testNode 1 (Message.GetBlock { height := 1 }) 0 0 0
    (by decide) (by decide)).1

/-- C3, counterexample.  A validly signed `Block` whose height is not
`storage.tip.height + 1` does not make `process_message` return success: the
error `BlockNotRelevant` is propagated to the caller (the claim's
"returns success" part fails; the state is indeed unchanged). -/
theorem c3_counterexample :
    blkLate.header.height ≠ testNode.storage.tip_height + 1
    ∧ verify_block_signature blkLate.header blkLate.signature testNode.network_pubkey = true
    ∧ (process_message envModel testNode 1 (Message.Block blkLate)).err ≠ none := by
  decide

/-- C3, amended.  For a `Block` whose height differs from
`storage.tip.height + 1` (even validly signed) and for a `MempoolTxs` whose tip
differs from `storage.tip_id`, the node state is unchanged and no message is
sent, but `process_message` returns the classified non-fatal error
(`BlockNotRelevant`, resp. `StaleMempoolState`) to the caller rather than
absorbing it. -/
theorem c3_amended :
    (∀ (env : Env) (s : NodeState) (pid : PeerId) (b : Block),
      b.header.height ≠ s.storage.tip_height + 1 →
      process_message env s pid (Message.Block b) =
        { state := s, sent := [], err := some (.BlockNotRelevant b.header.height) })
    ∧ (∀ (env : Env) (s : NodeState) (pid : PeerId) (r : MempoolTxs),
      r.tip ≠ s.storage.tip_id →
      process_message env s pid (Message.MempoolTxs r) =
        { state := s, sent := [], err := some (.StaleMempoolState r.tip) }) := by
  constructor
  · intro env s pid b hb
    simp [process_message, receive_block, hb]
  · intro env s pid r hr
    simp [process_message, receive_txs, hr]

/-- C3, witness for the amended theorem at a concrete late block. -/
theorem c3_witness :
    process_message envModel testNode 1 (Message.Block blkLate) =
      { state := testNode, sent := [], err := some (.BlockNotRelevant 5) } :=
  c3_amended.1 envModel testNode 1 blkLate (by decide)

/-- C5.  For an `Inventory` with the current version: a tip strictly above the
target tip triggers signature verification — failure returns
`InvalidBlockSignature` with the whole state (in particular `target_tip`)
unchanged and nothing sent, success adopts the advertised tip as the new
`target_tip`; a tip at or below the target height is accepted with no signature
check and `target_tip` unchanged. -/
theorem c5_inventory_handling (env : Env) (s : NodeState) (pid : PeerId)
    (inv : Inventory) (hv : inv.version = CURRENT_VERSION) :
    (s.target_tip.height < inv.tip.height →
      (verify_block_signature inv.tip inv.tip_signature s.network_pubkey = false →
        process_message env s pid (Message.Inventory inv) =
          { state := s, sent := [], err := some .InvalidBlockSignature })
      ∧ (verify_block_signature inv.tip inv.tip_signature s.network_pubkey = true →
        (process_message env s pid (Message.Inventory inv)).err = none
        ∧ (process_message env s pid (Message.Inventory inv)).state.target_tip = inv.tip))
    ∧ (inv.tip.height ≤ s.target_tip.height →
      (process_message env s pid (Message.Inventory inv)).err = none
      ∧ (process_message env s pid (Message.Inventory inv)).state.target_tip = s.target_tip) := by
  constructor
  · intro hlt
    constructor
    · intro hsig
      simp [process_message, receive_inventory, hv, hlt, hsig]
    · intro hsig
      simp [process_message, receive_inventory, hv, hlt, hsig, recordInventory]
  · intro hle
    have hnlt : ¬ s.target_tip.height < inv.tip.height := Nat.not_lt.mpr hle
    simp [process_message, receive_inventory, hv, hnlt, recordInventory]

/-- C5, witness: a higher validly-signed tip is adopted as the target tip. -/
theorem c5_witness :
    (process_message envModel testNode 1 (Message.Inventory invNext)).err = none
    ∧ (process_message envModel testNode 1 (Message.Inventory invNext)).state.target_tip
        = invNext.tip :=
  ((c5_inventory_handling envModel testNode 1 invNext (by decide)).1 (by decide)).2
    (by decide)

/-- The modelled `apply_block` fails only with a transaction-validation error. -/
theorem apply_block_error (st : BlockchainState) (h : BlockHeader)
    (txs : List BlockTx) (e : BlockchainError) :
    st.apply_block h txs = .error e → e = .TxValidation h.height := by
  simp only [BlockchainState.apply_block]
  split
  · intro hcontra
    exact Except.noConfusion hcontra
  · intro he
    injection he with h'
    exact h'.symm

/-- The modelled `Mempool.append` fails either with the skippable
duplicate/proof-conflict class or with a transaction-validation error. -/
theorem append_error_classified (m : Mempool) (tx : BlockTx) (e : BlockchainError) :
    Mempool.append m tx = .error e →
      e = .UtreexoError tx.txid ∨ e = .TxValidation tx.txid := by
  simp only [Mempool.append]
  split
  · intro h
    injection h with h'
    exact Or.inl h'.symm
  · split
    · intro h
      exact Except.noConfusion h
    · intro h
      injection h with h'
      exact Or.inr h'.symm

/-- Any error escaping the transaction loop of `receive_txs` is a
transaction-validation error (the skippable class is absorbed). -/
theorem processTxs_error (txs : List BlockTx) :
    ∀ (m : Mempool) (e : BlockchainError),
      (processTxs m txs).2 = some e → ∃ c, e = .TxValidation c := by
  induction txs with
  | nil =>
    intro m e h
    simp [processTxs] at h
  | cons tx rest ih =>
    intro m e
    simp only [processTxs]
    cases hap : Mempool.append m tx with
    | ok m2 => exact ih m2 e
    | error e' =>
      by_cases hu : e'.isUtreexo
      · simpa [hu] using ih m e
      · simp only [hu, Bool.false_eq_true, if_false, Option.some.injEq]
        intro he
        rcases append_error_classified m tx e' hap with h1 | h1
        · rw [h1] at hu
          simp [BlockchainError.isUtreexo] at hu
        · exact ⟨tx.txid, he ▸ h1⟩

/-- C9.  `process_message` returns `IncompatibleVersion` exactly on a
`GetInventory` or an `Inventory` whose version differs from `CURRENT_VERSION`;
the other four message kinds never produce it, and when it is returned no state
mutation (and no send) has occurred. -/
theorem c9_incompatible_version (env : Env) (s : NodeState) (pid : PeerId)
    (m : Message) :
    ((process_message env s pid m).err = some .IncompatibleVersion ↔
      (∃ r, m = Message.GetInventory r ∧ r.version ≠ CURRENT_VERSION)
      ∨ (∃ inv, m = Message.Inventory inv ∧ inv.version ≠ CURRENT_VERSION))
    ∧ ((process_message env s pid m).err = some .IncompatibleVersion →
        (process_message env s pid m).state = s
        ∧ (process_message env s pid m).sent = []) := by
  cases m with
  | GetInventory r =>
    by_cases hv : r.version = CURRENT_VERSION <;>
      simp [process_message, process_inventory_request, hv]
  | Inventory inv =>
    by_cases hv : inv.version = CURRENT_VERSION
    · simp only [process_message, receive_inventory, hv]
      simp only [ne_eq, not_true_eq_false, if_false]
      constructor
      · split
        · split <;> simp [hv]
        · simp [hv]
      · split
        · split <;> simp
        · simp
    · simp [process_message, receive_inventory, hv]
  | GetBlock r =>
    simp only [process_message, send_block]
    split <;> simp
  | Block b =>
    simp only [process_message, receive_block]
    split
    · simp
    · split
      · cases hap : s.storage.blockchain_state.apply_block b.header b.txs with
        | ok v => simp [hap]
        | error e =>
          have he := apply_block_error _ _ _ _ hap
          simp [hap, he]
      · simp
  | GetMempoolTxs r =>
    simp [process_message, send_txs]
  | MempoolTxs r =>
    simp only [process_message, receive_txs]
    split
    · simp
    · cases he : (processTxs s.mempool r.txs).2 with
      | none => simp [he]
      | some e =>
        rcases processTxs_error r.txs s.mempool e he with ⟨c, rfl⟩
        simp [he]

/-- C9, witness: a `GetInventory` with version 1 is rejected with
`IncompatibleVersion` and the concrete node state is untouched. -/
theorem c9_witness :
    (process_message envModel testNode 1
        (Message.GetInventory { version := 1, shortid_nonce := 0 })).err
      = some .IncompatibleVersion
    ∧ (process_message envModel testNode 1
        (Message.GetInventory { version := 1, shortid_nonce := 0 })).state = testNode :=
  ⟨(c9_incompatible_version envModel testNode 1
      (Message.GetInventory { version := 1, shortid_nonce := 0 })).1.mpr
      (Or.inl ⟨{ version := 1, shortid_nonce := 0 }, rfl, by decide⟩),
   ((c9_incompatible_version envModel testNode 1
      (Message.GetInventory { version := 1, shortid_nonce := 0 })).2
      ((c9_incompatible_version envModel testNode 1
        (Message.GetInventory { version := 1, shortid_nonce := 0 })).1.mpr
        (Or.inl ⟨{ version := 1, shortid_nonce := 0 }, rfl, by decide⟩))).1⟩

/-- C6.  A fresh node starts with `shortid_nonce_ttl = SHORTID_NONCE_TTL`; under
the invariant `1 ≤ ttl ≤ 50` a tick decrements the TTL, and exactly when the
decrement reaches zero it resets it to 50, adopts the fresh nonce, and resets
every peer's cached `shortid_nonce`/`shortid_list` (the nonce to the new value,
the list to empty), so the TTL stays in `[1, 50]` and the next tick's decrement
cannot underflow; `process_message` never touches the TTL. -/
theorem c6_ttl :
    (∀ (pk sid : Nat) (st : StorageState) (n : Nat),
      (Node.new pk sid st n).shortid_nonce_ttl = SHORTID_NONCE_TTL)
    ∧ (∀ (env : Env) (s : NodeState) (now freshNonce pick : Nat),
      1 ≤ s.shortid_nonce_ttl → s.shortid_nonce_ttl ≤ SHORTID_NONCE_TTL →
      (1 ≤ (synchronize env s now freshNonce pick).1.shortid_nonce_ttl
        ∧ (synchronize env s now freshNonce pick).1.shortid_nonce_ttl ≤ SHORTID_NONCE_TTL)
      ∧ (s.shortid_nonce_ttl = 1 →
          (synchronize env s now freshNonce pick).1.shortid_nonce_ttl = SHORTID_NONCE_TTL
          ∧ (synchronize env s now freshNonce pick).1.shortid_nonce = freshNonce
          ∧ ∀ pp ∈ (synchronize env s now freshNonce pick).1.peers,
              pp.2.shortid_nonce = freshNonce ∧ pp.2.shortid_list = [])
      ∧ (2 ≤ s.shortid_nonce_ttl →
          (synchronize env s now freshNonce pick).1.shortid_nonce_ttl = s.shortid_nonce_ttl - 1
          ∧ (synchronize env s now freshNonce pick).1.shortid_nonce = s.shortid_nonce))
    ∧ (∀ (env : Env) (s : NodeState) (pid : PeerId) (m : Message),
      (process_message env s pid m).state.shortid_nonce_ttl = s.shortid_nonce_ttl) := by
  refine ⟨fun pk sid st n => rfl, ?_, ?_⟩
  · intro env s now freshNonce pick h1 h50
    rw [synchronize_fst]
    by_cases hc : s.shortid_nonce_ttl - 1 = 0
    · refine ⟨?_, ?_, ?_⟩
      · simp [rotate_shortid_nonce_if_needed, hc, SHORTID_NONCE_TTL]
      · intro _
        refine ⟨?_, ?_, ?_⟩
        · simp [rotate_shortid_nonce_if_needed, hc]
        · simp [rotate_shortid_nonce_if_needed, hc]
        · intro pp hpp
          simp only [rotate_shortid_nonce_if_needed, hc, if_true,
            List.map_map, List.mem_map] at hpp
          obtain ⟨q, _, rfl⟩ := hpp
          exact ⟨rfl, rfl⟩
      · intro h2
        omega
    · refine ⟨?_, ?_, ?_⟩
      · simp only [rotate_shortid_nonce_if_needed, hc, if_false]
        simp only [SHORTID_NONCE_TTL] at h50 ⊢
        omega
      · intro h1'
        omega
      · intro _
        simp [rotate_shortid_nonce_if_needed, hc]
  · intro env s pid m
    cases m with
    | GetInventory r =>
      simp only [process_message, process_inventory_request]
      split <;> rfl
    | Inventory inv =>
      simp only [process_message, receive_inventory]
      split
      · rfl
      · split
        · split <;> rfl
        · rfl
    | GetBlock r =>
      simp only [process_message, send_block]
      split <;> rfl
    | Block b =>
      simp only [process_message, receive_block]
      split
      · rfl
      · split
        · split <;> rfl
        · rfl
    | GetMempoolTxs r => rfl
    | MempoolTxs r =>
      simp only [process_message, receive_txs]
      split <;> rfl

/-- C6, witness: the tick that exhausts the TTL resets it to 50, adopts the
fresh nonce and clears the peer's cached short-id list. -/
theorem c6_witness :
    (synchronize envModel nodeTTL1 0 999 0).1.shortid_nonce_ttl = SHORTID_NONCE_TTL
    ∧ (synchronize envModel nodeTTL1 0 999 0).1.shortid_nonce = 999 :=
  ⟨(((c6_ttl.2.1 envModel nodeTTL1 0 999 0 (by decide) (by decide)).2.1 (by decide)).1),
   (((c6_ttl.2.1 envModel nodeTTL1 0 999 0 (by decide) (by decide)).2.1 (by decide)).2.1)⟩

/-- C2, divergence.  Processing a valid `Inventory` succeeds and records
`peer.tip`, `peer.shortid_nonce` and `peer.shortid_list`, but
`last_inventory_received` keeps the value set at connection time (the source
never updates it on receipt); consequently a tick 61 seconds after the
connection still sends the peer a fresh `GetInventory` even though its
inventory was received. -/
theorem c2_divergence :
    (process_message envModel nodeConn 5 (Message.Inventory invSame)).err = none
    ∧ findPeer nodeAfterInv.peers 5 = some peerAfterInv
    ∧ (5, Message.GetInventory { version := CURRENT_VERSION, shortid_nonce := 3 })
        ∈ (synchronize envModel nodeAfterInv 61 999 0).2 := by
  decide

/-- C7.  For a `MempoolTxs` whose tip matches `storage.tip_id`, the handler
runs the append loop over the carried transactions in order: an append that
succeeds continues on the grown mempool, a failure of the skippable
duplicate/proof-conflict class is ignored and processing continues with the
next transaction, and any other failure aborts the remaining transactions and
is returned from `process_message`; no skippable error ever escapes the loop. -/
theorem c7_receive_txs :
    (∀ (env : Env) (s : NodeState) (pid : PeerId) (r : MempoolTxs),
      r.tip = s.storage.tip_id →
      process_message env s pid (Message.MempoolTxs r) =
        { state := { s with mempool := (processTxs s.mempool r.txs).1 }
          sent := []
          err := (processTxs s.mempool r.txs).2 })
    ∧ (∀ (m m2 : Mempool) (tx : BlockTx) (rest : List BlockTx),
      Mempool.append m tx = .ok m2 →
      processTxs m (tx :: rest) = processTxs m2 rest)
    ∧ (∀ (m : Mempool) (tx : BlockTx) (rest : List BlockTx) (e : BlockchainError),
      Mempool.append m tx = .error e → e.isUtreexo = true →
      processTxs m (tx :: rest) = processTxs m rest)
    ∧ (∀ (m : Mempool) (tx : BlockTx) (rest : List BlockTx) (e : BlockchainError),
      Mempool.append m tx = .error e → e.isUtreexo = false →
      processTxs m (tx :: rest) = (m, some e))
    ∧ (∀ (m : Mempool) (txs : List BlockTx) (e : BlockchainError),
      (processTxs m txs).2 = some e → e.isUtreexo = false) := by
  refine ⟨?_, ?_, ?_, ?_, ?_⟩
  · intro env s pid r hr
    simp [process_message, receive_txs, hr]
  · intro m m2 tx rest hap
    simp [processTxs, hap]
  · intro m tx rest e hap hu
    simp [processTxs, hap, hu]
  · intro m tx rest e hap hu
    simp [processTxs, hap, hu]
  · intro m txs e h
    rcases processTxs_error txs m e h with ⟨c, rfl⟩
    rfl

/-- C7, witness: the concrete message is processed through the append loop. -/
theorem c7_witness :
    process_message envModel testNode 1 (Message.MempoolTxs mtxsFix) =
      { state := { testNode with mempool := (processTxs testNode.mempool mtxsFix.txs).1 }
        sent := []
        err := (processTxs testNode.mempool mtxsFix.txs).2 } :=
  c7_receive_txs.1 envModel testNode 1 mtxsFix (by decide)

/-- Splitting the append loop at a failure-free prefix. -/
theorem processTxs_append_of_ok (pre : List BlockTx) :
    ∀ (m m2 : Mempool) (ys : List BlockTx),
      processTxs m pre = (m2, none) →
      processTxs m (pre ++ ys) = processTxs m2 ys := by
  induction pre with
  | nil =>
    intro m m2 ys h
    have hm : m = m2 := by simpa [processTxs] using h
    subst hm
    simp
  | cons tx rest ih =>
    intro m m2 ys h
    simp only [processTxs, List.cons_append] at h ⊢
    cases hap : Mempool.append m tx with
    | ok m3 =>
      simp only [hap] at h ⊢
      exact ih m3 m2 ys h
    | error e =>
      by_cases hu : e.isUtreexo
      · simp only [hap, hu, if_true] at h ⊢
        exact ih m m2 ys h
      · simp [hap, hu] at h

/-- C10.  Processing a `MempoolTxs` message is not atomic: when a prefix of the
carried transactions has been appended without an escaping error and the next
transaction fails with a non-skippable error, `process_message` returns that
error while the mempool keeps everything the prefix appended — the partial
mutation is not rolled back, and the remaining transactions are not processed. -/
theorem c10_no_rollback (env : Env) (s : NodeState) (pid : PeerId)
    (pre : List BlockTx) (tx : BlockTx) (rest : List BlockTx)
    (m2 : Mempool) (e : BlockchainError)
    (hpre : processTxs s.mempool pre = (m2, none))
    (htx : Mempool.append m2 tx = .error e)
    (hfatal : e.isUtreexo = false) :
    process_message env s pid
        (Message.MempoolTxs { tip := s.storage.tip_id, txs := pre ++ tx :: rest }) =
      { state := { s with mempool := m2 }, sent := [], err := some e } := by
  have hsplit := processTxs_append_of_ok pre s.mempool m2 (tx :: rest) hpre
  simp [process_message, receive_txs, hsplit, processTxs, htx, hfatal]

/-- C10, witness: `txOk1` stays in the mempool although `txBad` aborted the
message with a fatal validation error and `txOk3` was never processed. -/
theorem c10_witness :
    process_message envModel testNode 1
        (Message.MempoolTxs { tip := testNode.storage.tip_id, txs := [txOk1] ++ txBad :: [txOk3] }) =
      { state := { testNode with mempool := memOk1 }, sent := [], err := some (.TxValidation 2) } :=
  c10_no_rollback envModel testNode 1 [txOk1] txBad [txOk3] memOk1 (.TxValidation 2)
    (by decide) rfl rfl

/-- C8, counterexample.  `create_block` signs with whatever key it is given:
with a signing key (3) not matching the network public key (7) of the node, the
stored block's signature does not verify under `network_pubkey`, so the claim's
"for every signing key" quantification over the verification clause fails. -/
theorem c8_counterexample :
    verify_block_signature (create_block testNode 0 3).storage.state.tip
      (create_block testNode 0 3).storage.tipSignature testNode.network_pubkey = false := by
  decide

/-- C8, amended.  For every input timestamp and signing key, `create_block`
uses the clamped timestamp `max(input_ts, tip.timestamp_ms)` (the stored tip's
timestamp is the mempool clock advanced to that clamp) and stores exactly the
state produced by `mempool.make_block`, so `storage.tip.id = new_state.tip.id`;
and when the signing key is the one matching `network_pubkey`, the stored
block's signature verifies under `network_pubkey`. -/
theorem c8_amended (s : NodeState) (ts key : Nat) :
    (create_block s ts key).storage.state.tip.id =
      ((s.mempool.update_timestamp (max ts (s.storage.tip).1.timestamp_ms)).make_block).1.tip.id
    ∧ (create_block s ts key).storage.state.tip.timestamp_ms
        = max (max ts s.storage.state.tip.timestamp_ms) s.mempool.timestamp_ms
    ∧ (key = s.network_pubkey →
        verify_block_signature (create_block s ts key).storage.state.tip
          (create_block s ts key).storage.tipSignature s.network_pubkey = true) := by
  refine ⟨rfl, ?_, ?_⟩
  · simp only [create_block, Mempool.update_timestamp, Mempool.make_block,
      StorageState.store_block, StorageState.tip]
    omega
  · intro hk
    simp [create_block, StorageState.store_block, verify_block_signature,
      create_block_signature, BlockHeader.id, hk]

/-- C8, witness: signing with the matching key (7) produces a stored block
whose signature verifies under the network public key. -/
theorem c8_witness :
    verify_block_signature (create_block testNode 0 7).storage.state.tip
      (create_block testNode 0 7).storage.tipSignature testNode.network_pubkey = true :=
  (c8_amended testNode 0 7).2.2 (by decide)

/-- Unfolding `joinIds` over a cons. -/
theorem joinIds_cons (pr : PeerId × GetMempoolTxs)
    (rest : List (PeerId × GetMempoolTxs)) :
    joinIds (pr :: rest) = pr.2.shortid_list ++ joinIds rest := rfl

/-- Any id of any request occurs in the joined id list. -/
theorem mem_joinIds (reqs : List (PeerId × GetMempoolTxs))
    (pr : PeerId × GetMempoolTxs) (x : ShortID)
    (hpr : pr ∈ reqs) (hx : x ∈ pr.2.shortid_list) : x ∈ joinIds reqs := by
  induction reqs with
  | nil => cases hpr
  | cons q rest ih =>
    rcases List.mem_cons.mp hpr with rfl | h
    · rw [joinIds_cons]
      exact List.mem_append_left _ hx
    · rw [joinIds_cons]
      exact List.mem_append_right _ (ih h)

/-- Claiming an id for a peer permutes the joined id list into the claimed id
followed by the previous ids. -/
theorem updateReq_perm (nonce : Nat) (pid : PeerId) (id : ShortID) :
    ∀ reqs, List.Perm (joinIds (updateReq nonce pid id reqs)) (id :: joinIds reqs) := by
  intro reqs
  induction reqs with
  | nil => simp [updateReq, joinIds]
  | cons q rest ih =>
    obtain ⟨p, req⟩ := q
    by_cases hp : p = pid
    · simp only [updateReq, if_pos hp, joinIds_cons]
      have harr : (req.shortid_list ++ [id]) ++ joinIds rest
          = req.shortid_list ++ id :: joinIds rest := by simp
      rw [harr]
      exact List.perm_middle
    · simp only [updateReq, if_neg hp, joinIds_cons]
      exact (List.Perm.append_left req.shortid_list ih).trans List.perm_middle

/-- Claiming an id preserves the nonce carried by every pending request. -/
theorem updateReq_nonce (nonce : Nat) (pid : PeerId) (id : ShortID) :
    ∀ reqs, (∀ pr ∈ reqs, pr.2.shortid_nonce = nonce) →
      ∀ pr ∈ updateReq nonce pid id reqs, pr.2.shortid_nonce = nonce := by
  intro reqs
  induction reqs with
  | nil =>
    intro _ pr hpr
    rw [List.mem_singleton.mp hpr]
  | cons q rest ih =>
    obtain ⟨p, req⟩ := q
    intro hall pr hpr
    by_cases hp : p = pid
    · simp only [updateReq, if_pos hp] at hpr
      rcases List.mem_cons.mp hpr with rfl | h
      · simpa using hall (p, req) (List.mem_cons_self _ _)
      · exact hall pr (List.mem_cons_of_mem _ h)
    · simp only [updateReq, if_neg hp] at hpr
      rcases List.mem_cons.mp hpr with rfl | h
      · exact hall (p, req) (List.mem_cons_self _ _)
      · exact ih (fun pr2 h2 => hall pr2 (List.mem_cons_of_mem _ h2)) pr h

/-- One pass over the peers at a fixed offset preserves the round-robin
invariant. -/
theorem assignAtOffset_inv (nonce offset : Nat) (seed : List ShortID) :
    ∀ (peers : List (PeerId × PeerInfo)) (assigned : List ShortID)
      (reqs : List (PeerId × GetMempoolTxs)) (done : Bool),
      SyncInv nonce seed assigned reqs →
      SyncInv nonce seed (assignAtOffset nonce offset peers assigned reqs done).2.1
        (assignAtOffset nonce offset peers assigned reqs done).2.2 := by
  intro peers
  induction peers with
  | nil =>
    intro assigned reqs done h
    simpa [assignAtOffset] using h
  | cons pp rest ih =>
    obtain ⟨pid, peer⟩ := pp
    intro assigned reqs done h
    cases hget : peer.shortid_list.get? offset with
    | none =>
      simp only [assignAtOffset, hget]
      exact ih assigned reqs done h
    | some id =>
      by_cases hid : id ∈ assigned
      · simp only [assignAtOffset, hget, if_pos hid]
        exact ih assigned reqs false h
      · simp only [assignAtOffset, hget, if_neg hid]
        refine ih _ _ false ?_
        obtain ⟨hseed, hnodup, hmem, hnonce⟩ := h
        refine ⟨?_, ?_, ?_, ?_⟩
        · intro x hx
          exact List.mem_cons_of_mem _ (hseed x hx)
        · refine ((updateReq_perm nonce pid id reqs).nodup_iff).mpr ?_
          refine List.nodup_cons.mpr ⟨?_, hnodup⟩
          intro hidj
          exact hid (hmem id hidj).1
        · intro x hx
          have hx2 : x ∈ id :: joinIds reqs :=
            ((updateReq_perm nonce pid id reqs).mem_iff).mp hx
          rcases List.mem_cons.mp hx2 with rfl | hx3
          · exact ⟨List.mem_cons_self _ _, fun hseedmem => hid (hseed x hseedmem)⟩
          · obtain ⟨ha, hs⟩ := hmem x hx3
            exact ⟨List.mem_cons_of_mem _ ha, hs⟩
        · exact updateReq_nonce nonce pid id reqs hnonce

/-- The offset loop preserves the round-robin invariant for some final
assigned set. -/
theorem syncLoop_inv (nonce : Nat) (peers : List (PeerId × PeerInfo))
    (seed : List ShortID) :
    ∀ (fuel offset : Nat) (assigned : List ShortID)
      (reqs : List (PeerId × GetMempoolTxs)),
      SyncInv nonce seed assigned reqs →
      ∃ assigned2,
        SyncInv nonce seed assigned2 (syncLoop nonce peers fuel offset assigned reqs) := by
  intro fuel
  induction fuel with
  | zero =>
    intro offset assigned reqs h
    exact ⟨assigned, h⟩
  | succ f ih =>
    intro offset assigned reqs h
    simp only [syncLoop]
    rcases hres : assignAtOffset nonce offset peers assigned reqs true with ⟨done, a2, r2⟩
    have hinv2 := assignAtOffset_inv nonce offset seed peers assigned reqs true h
    rw [hres] at hinv2
    cases done with
    | true => exact ⟨assigned, h⟩
    | false => exact ih (offset + 1) a2 r2 hinv2

/-- A duplicate-free joined id list means every single request is
duplicate-free and the requests are pairwise disjoint. -/
theorem joinIds_nodup_parts :
    ∀ (reqs : List (PeerId × GetMempoolTxs)), (joinIds reqs).Nodup →
      (∀ pr ∈ reqs, pr.2.shortid_list.Nodup)
      ∧ List.Pairwise
          (fun a b => ∀ x ∈ a.2.shortid_list, x ∉ b.2.shortid_list) reqs := by
  intro reqs
  induction reqs with
  | nil =>
    intro _
    exact ⟨by simp, List.Pairwise.nil⟩
  | cons q rest ih =>
    intro h
    rw [joinIds_cons] at h
    rcases List.nodup_append.mp h with ⟨h1, h2, hdisj⟩
    obtain ⟨iha, ihb⟩ := ih h2
    refine ⟨?_, ?_⟩
    · intro pr hpr
      rcases List.mem_cons.mp hpr with rfl | hm
      · exact h1
      · exact iha pr hm
    · refine List.Pairwise.cons ?_ ihb
      intro b hb x hx hxb
      exact hdisj hx (mem_joinIds rest b x hb hxb)

/-- C4.  For every short-id transform and every node state, the requests built
by the mempool-reconciliation pass are such that no short-id occurs twice in
one request or in two different requests (the joined id list is
duplicate-free), no requested short-id equals the shortened txid (under the
current nonce and our own id) of a transaction already in the mempool, and
every request carries the node's current `shortid_nonce`. -/
theorem c4_round_robin (env : Env) (s : NodeState) :
    (joinIds (synchronizeMempoolRequests env s)).Nodup
    ∧ (∀ pr ∈ synchronizeMempoolRequests env s, pr.2.shortid_list.Nodup)
    ∧ List.Pairwise
        (fun a b => ∀ x ∈ a.2.shortid_list, x ∉ b.2.shortid_list)
        (synchronizeMempoolRequests env s)
    ∧ (∀ x ∈ joinIds (synchronizeMempoolRequests env s), x ∉ mempoolShortIds env s)
    ∧ (∀ pr ∈ synchronizeMempoolRequests env s, pr.2.shortid_nonce = s.shortid_nonce) := by
  have hinit : SyncInv s.shortid_nonce (mempoolShortIds env s)
      (mempoolShortIds env s) [] :=
    ⟨fun x hx => hx, by simp [joinIds], by simp [joinIds], by simp⟩
  obtain ⟨a2, hseed, hnodup, hmem, hnonce⟩ :=
    syncLoop_inv s.shortid_nonce s.peers (mempoolShortIds env s) 1000000 0
      (mempoolShortIds env s) [] hinit
  obtain ⟨hparts1, hparts2⟩ := joinIds_nodup_parts _ hnodup
  exact ⟨hnodup, hparts1, hparts2, fun x hx => (hmem x hx).2, hnonce⟩

/-- C4, witness: on the concrete overlapping configuration the pass claims 10
and 11 for the first peer and only 13 for the second (10 is already claimed and
12 is already in our mempool), and the guaranteed properties hold. -/
theorem c4_witness :
    (joinIds (synchronizeMempoolRequests envTest nodeRR)).Nodup
    ∧ synchronizeMempoolRequests envTest nodeRR =
        [(1, { shortid_nonce := 3, shortid_list := [10, 11] }),
         (2, { shortid_nonce := 3, shortid_list := [13] })] :=
  ⟨(c4_round_robin envTest nodeRR).1, by decide⟩

end Slingshot
